import Mathlib

/-
Shallow embedding of the vic3-parser-rust repository (library modules under
src/: token.rs, value.rs, parse_simple_value.rs, parse_next_value.rs,
parse_array.rs, parse_program.rs).

Modelling conventions:
- Rust &str is Lean String; i64 is Int (i64 overflow panics in the lexer
  callback are not modelled; no claim touches them); f64 tokens/values carry
  their source lexeme as a String (no claim depends on float arithmetic).
- Spans count characters (identical to the source's byte offsets on the ASCII
  inputs exercised here).
- The logos lexer is modelled rule-by-rule from the regexes and priorities in
  token.rs: at each position every rule contributes its maximal match length,
  the longest match wins and ties are broken by the declared priority (logos's
  documented disambiguation).  Rules marked skip (whitespace, Comment1,
  Comment2) emit nothing; a position matching no rule yields an error item
  (modelled as `none`) spanning one character, and lexing continues.
- A lexer is a list of (Option Token x Span) items (none = lex error item)
  plus the span of the last consumed token (logos's lexer.span()) and the
  input length (logos reports the empty end-of-input span once the iterator
  is exhausted).
- Recursion in the parser is by fuel; the top-level wrapper supplies fuel
  that is ample for every input (exhaustion is an artificial error and every
  theorem below either supplies enough fuel or holds for all fuel).
-/

namespace Vic3

structure Span where
  start : Nat
  stop : Nat
deriving DecidableEq, Repr

/-- Token type of token.rs (the Comment variants are declared there but are
logos-skipped and never emitted; they are kept for the dead match arm in
parse_program.rs). -/
inductive Token where
  | Bool (b : Bool)
  | BraceOpen
  | BraceClose
  | EqualSign
  | Null
  | Float (raw : String)
  | Integer (n : Int)
  | String (s : String)
  | Any (s : String)
  | Comment1
  | Comment2
deriving DecidableEq, Repr

/-! Tokenizer: one matcher per rule of token.rs, each returning the maximal
match length at the head of the input (0 = no match). -/

def isWsChar (c : Char) : Bool :=
  c = ' ' || c = '\t' || c = '\r' || c = '\n' || c = '\x0c'

def isAnyChar (c : Char) : Bool :=
  c.isAlpha || c.isDigit || c = '_' || c = ':'

def isNonZeroDigit (c : Char) : Bool :=
  '1' ≤ c && c ≤ '9'

def litMatches : List Char → List Char → Bool
  | [], _ => true
  | _ :: _, [] => false
  | l :: ls, c :: cs => l == c && litMatches ls cs

def litLen (lit : List Char) (cs : List Char) : Nat :=
  if litMatches lit cs then lit.length else 0

def wsLen (cs : List Char) : Nat := (cs.takeWhile isWsChar).length

def anyLen (cs : List Char) : Nat := (cs.takeWhile isAnyChar).length

/-- Integer rule: -?(?:0|[0-9]\d*), maximal match (the second alternative is
a full digit run; note the source uses [0-9], not [1-9]). -/
def intLen (cs : List Char) : Nat :=
  match cs with
  | '-' :: rest =>
    let d := (rest.takeWhile Char.isDigit).length
    if d = 0 then 0 else d + 1
  | _ => (cs.takeWhile Char.isDigit).length

/-- Integer part of the Float rule: 0|[1-9]\d* . -/
def floatIntPartLen (cs : List Char) : Nat :=
  match cs with
  | '0' :: _ => 1
  | c :: _ => if isNonZeroDigit c then (cs.takeWhile Char.isDigit).length else 0
  | [] => 0

/-- Mandatory fraction of the Float rule: \.\d+ (0 = no match). -/
def fracLen (cs : List Char) : Nat :=
  match cs with
  | '.' :: rest =>
    let d := (rest.takeWhile Char.isDigit).length
    if d = 0 then 0 else d + 1
  | _ => 0

/-- Optional exponent of the Float rule: [eE][+-]?\d+ (0 = absent or
incomplete, in which case the greedy regex backtracks to omit it). -/
def expLen (cs : List Char) : Nat :=
  match cs with
  | c :: rest =>
    if c = 'e' || c = 'E' then
      match rest with
      | s :: rest2 =>
        if s = '+' || s = '-' then
          let d := (rest2.takeWhile Char.isDigit).length
          if d = 0 then 0 else d + 2
        else
          let d := (rest.takeWhile Char.isDigit).length
          if d = 0 then 0 else d + 1
      | [] => 0
    else 0
  | [] => 0

/-- Float rule: -?(?:0|[1-9]\d*)(?:\.\d+)(?:[eE][+-]?\d+)? — note the
fraction is mandatory in token.rs. -/
def floatLen (cs : List Char) : Nat :=
  let s := if cs.head? = some '-' then 1 else 0
  let body := cs.drop s
  let i := floatIntPartLen body
  if i = 0 then 0
  else
    let f := fracLen (body.drop i)
    if f = 0 then 0
    else s + i + f + expLen (body.drop (i + f))

def isHexChar (c : Char) : Bool :=
  c.isDigit || ('a' ≤ c && c ≤ 'f') || ('A' ≤ c && c ≤ 'F')

def isPlainStrChar (c : Char) : Bool :=
  c ≠ '"' && c ≠ '\\' && 0x20 ≤ c.toNat

def isEscChar (c : Char) : Bool :=
  c = '"' || c = '\\' || c = 'b' || c = 'n' || c = 'f' || c = 'r' || c = 't' || c = '/'

/-- Length of a quoted-string body (after the opening quote) up to and
including the closing quote, following the String rule's character and
escape classes; none = the regex does not match. -/
def strBodyLen : List Char → Option Nat
  | [] => none
  | c :: rest =>
    if c = '"' then some 1
    else if c = '\\' then
      match rest with
      | e :: rest2 =>
        if isEscChar e then (strBodyLen rest2).map (fun n => n + 2)
        else if e = 'u' then
          match rest2 with
          | a :: b :: c2 :: d :: rest3 =>
            if isHexChar a && isHexChar b && isHexChar c2 && isHexChar d then
              (strBodyLen rest3).map (fun n => n + 6)
            else none
          | _ => none
        else none
      | [] => none
    else if isPlainStrChar c then (strBodyLen rest).map (fun n => n + 1)
    else none

def strLen (cs : List Char) : Nat :=
  match cs with
  | '"' :: rest =>
    match strBodyLen rest with
    | some n => n + 1
    | none => 0
  | _ => 0

def isComment1Start (c : Char) : Bool :=
  c = '#' || c = '|' || c = '(' || c = '/' || c = ')'

/-- Comment1 rule: [#|(//)].*\n — one char of the class, then non-newline
chars, then a mandatory newline. -/
def comment1Len (cs : List Char) : Nat :=
  match cs with
  | c :: rest =>
    if isComment1Start c then
      let body := (rest.takeWhile (fun x => x ≠ '\n')).length
      match rest.drop body with
      | '\n' :: _ => body + 2
      | _ => 0
    else 0
  | [] => 0

/-- Comment2 rule: \/\*[^\*\/]* — "/*" then chars that are neither star nor
slash (no closing delimiter is required by the source regex). -/
def comment2Len (cs : List Char) : Nat :=
  match cs with
  | '/' :: '*' :: rest => 2 + (rest.takeWhile (fun c => c ≠ '*' && c ≠ '/')).length
  | _ => 0

inductive TokKind where
  | kTrue | kFalse | kOpen | kClose | kEq | kNull
  | kFloat | kInt | kStr | kAny | kWs | kC1 | kC2
deriving DecidableEq, Repr

/-- All rules with their match length at the head of cs and their declared
logos priority. -/
def allCands (cs : List Char) : List (Nat × Nat × TokKind) :=
  [ (litLen ['f','a','l','s','e'] cs, 1, .kFalse),
    (litLen ['t','r','u','e'] cs, 1, .kTrue),
    (litLen ['\x7b'] cs, 1, .kOpen),
    (litLen ['\x7d'] cs, 1, .kClose),
    (litLen ['='] cs, 1, .kEq),
    (litLen ['n','u','l','l'] cs, 1, .kNull),
    (floatLen cs, 3, .kFloat),
    (intLen cs, 2, .kInt),
    (strLen cs, 3, .kStr),
    (anyLen cs, 0, .kAny),
    (wsLen cs, 4, .kWs),
    (comment1Len cs, 1, .kC1),
    (comment2Len cs, 2, .kC2) ]

def cands (cs : List Char) : List (Nat × Nat × TokKind) :=
  (allCands cs).filter (fun c => c.1 ≠ 0)

/-- Longest match wins; ties broken by higher priority. -/
def betterCand (c b : Nat × Nat × TokKind) : Bool :=
  b.1 < c.1 || (c.1 = b.1 && b.2.1 < c.2.1)

def pickBest (l : List (Nat × Nat × TokKind)) : Option (Nat × Nat × TokKind) :=
  l.foldl
    (fun acc c =>
      match acc with
      | none => some c
      | some b => if betterCand c b then some c else some b)
    none

def digitsToNat (ds : List Char) : Nat :=
  ds.foldl (fun acc c => acc * 10 + (c.toNat - '0'.toNat)) 0

def sliceToInt (cs : List Char) : Int :=
  match cs with
  | '-' :: rest => -(digitsToNat rest : Int)
  | _ => (digitsToNat cs : Int)

/-- trim_matches of the quote character: drop every leading and trailing
quote from the matched slice (the payload is not unescaped, exactly as in
token.rs). -/
def trimQuotes (cs : List Char) : List Char :=
  ((cs.dropWhile (fun c => c = '"')).reverse.dropWhile (fun c => c = '"')).reverse

/-- Token built from the winning rule and the matched slice; none = the rule
is logos-skipped (whitespace, comments). -/
def mkToken (k : TokKind) (slice : List Char) : Option Token :=
  match k with
  | .kTrue => some (.Bool true)
  | .kFalse => some (.Bool false)
  | .kOpen => some .BraceOpen
  | .kClose => some .BraceClose
  | .kEq => some .EqualSign
  | .kNull => some .Null
  | .kFloat => some (.Float (String.mk slice))
  | .kInt => some (.Integer (sliceToInt slice))
  | .kStr => some (.String (String.mk (trimQuotes slice)))
  | .kAny => some (.Any (String.mk slice))
  | .kWs => none
  | .kC1 => none
  | .kC2 => none

def tokenizeAux : Nat → Nat → List Char → List (Option Token × Span)
  | 0, _, _ => []
  | _ + 1, _, [] => []
  | fuel + 1, pos, cs =>
    match pickBest (cands cs) with
    | some (len, _, k) =>
      match mkToken k (cs.take len) with
      | some t => (some t, ⟨pos, pos + len⟩) :: tokenizeAux fuel (pos + len) (cs.drop len)
      | none => tokenizeAux fuel (pos + len) (cs.drop len)
    | none => (none, ⟨pos, pos + 1⟩) :: tokenizeAux fuel (pos + 1) (cs.drop 1)

def tokenize (source : String) : List (Option Token × Span) :=
  tokenizeAux (source.length + 1) 0 source.toList

/-! Value model of value.rs.  Value.Object carries the entry list of the
OrderedHashMap in its insertion order; Value.Float carries the source
lexeme of the f64. -/

inductive Value where
  | Null
  | Bool (b : Bool)
  | Float (raw : String)
  | Integer (n : Int)
  | String (s : String)
  | Array (elems : List Value)
  | Object (entries : List (String × Value))
  | Empty

/-- Error channel of the crate: (message, span). -/
abbrev PErr := String × Span

def isObject : Value → Bool
  | .Object _ => true
  | _ => false

/-- OrderedHashMap::insert — overwriting a present key keeps its original
position; a new key is appended. -/
def ohmInsert (m : List (String × Value)) (k : String) (v : Value) : List (String × Value) :=
  if m.any (fun p => p.1 == k) then
    m.map (fun p => if p.1 == k then (k, v) else p)
  else m ++ [(k, v)]

/-- OrderedHashMap::extend — insert every pair in order. -/
def ohmExtend (m : List (String × Value)) (l : List (String × Value)) : List (String × Value) :=
  l.foldl (fun acc p => ohmInsert acc p.1 p.2) m

/-- OrderedHashMap::from_iter. -/
def ohmFromPairs (l : List (String × Value)) : List (String × Value) :=
  ohmExtend [] l

/-- parse_simple_value of parse_simple_value.rs (Span::default() = 0..0). -/
def parse_simple_value (t : Token) : Except PErr Value :=
  match t with
  | .Bool b => .ok (.Bool b)
  | .Null => .ok .Null
  | .Float n => .ok (.Float n)
  | .Integer n => .ok (.Integer n)
  | .String s => .ok (.String s)
  | .Any s => .ok (.String s)
  | _ => .error ("unexpected token when expecting simple value", ⟨0, 0⟩)

/-- Loop body of flatten_array of parse_array.rs, with the accumulated
OrderedHashMap made explicit. -/
def flatten_arrayAux : List (String × Value) → List Value → Except PErr Value
  | acc, [] => .ok (.Object acc)
  | acc, v :: rest =>
    match v with
    | .Object obj => flatten_arrayAux (ohmExtend acc obj) rest
    | _ => .error ("array containing object is mixed with non-object value", ⟨0, 0⟩)

/-- flatten_array of parse_array.rs. -/
def flatten_array (objects : List Value) : Except PErr Value :=
  flatten_arrayAux [] objects

/-- The lexer as seen by the parser: remaining items, span of the last
consumed token (lexer.span()), and the input length (after the iterator is
exhausted, lexer.span() is the empty span at the end of input). -/
structure LexState where
  rest : List (Option Token × Span)
  cur : Span
  endPos : Nat

def LexState.eofSpan (st : LexState) : Span := ⟨st.endPos, st.endPos⟩

inductive ArrayParseResult where
  | Single (v : Value)
  | Multiple (vs : List Value)
  | EndArray (v : Value)

/-- Debug format of a token, mirroring the derived Debug used in the
parse_program.rs error message (string escaping inside payloads is not
reproduced; no claim touches it). -/
def tokenDebug : Token → String
  | .Bool true => "Bool(true)"
  | .Bool false => "Bool(false)"
  | .BraceOpen => "BraceOpen"
  | .BraceClose => "BraceClose"
  | .EqualSign => "EqualSign"
  | .Null => "Null"
  | .Float s => "Float(" ++ s ++ ")"
  | .Integer n => "Integer(" ++ toString n ++ ")"
  | .String s => "String(\"" ++ s ++ "\")"
  | .Any s => "Any(\"" ++ s ++ "\")"
  | .Comment1 => "Comment1"
  | .Comment2 => "Comment2"

def optKeyDebug : Option String → String
  | none => "None"
  | some k => "Some(\"" ++ k ++ "\")"

def objCtxErrMsg (t : Token) (k : Option String) : String :=
  "unexpected token '" ++ tokenDebug t ++ "' in object context, current_key: " ++ optKeyDebug k

mutual

/-- parse_next_value of parse_next_value.rs (note: Token::Bool and
Token::Null fall into the catch-all and are rejected). -/
def parse_next_valueF : Nat → LexState → Except PErr (Value × LexState)
  | 0, st => .error ("fuel exhausted", st.cur)
  | fuel + 1, st =>
    match st.rest with
    | (some (.String s), sp) :: r => .ok (.String s, ⟨r, sp, st.endPos⟩)
    | (some (.Float n), sp) :: r => .ok (.Float n, ⟨r, sp, st.endPos⟩)
    | (some (.Integer n), sp) :: r => .ok (.Integer n, ⟨r, sp, st.endPos⟩)
    | (some (.Any s), sp) :: r => .ok (.String s, ⟨r, sp, st.endPos⟩)
    | (some .BraceOpen, sp) :: r => parse_arrayF fuel ⟨r, sp, st.endPos⟩
    | (some .BraceClose, sp) :: _ => .error ("unexpected '\x7d' when expecting value", sp)
    | (_, sp) :: _ => .error ("expected value", sp)
    | [] => .error ("expected value", st.eofSpan)

/-- parse_array of parse_array.rs: captures the entry span (the span of the
already-consumed opening brace) and runs the accumulation loop. -/
def parse_arrayF : Nat → LexState → Except PErr (Value × LexState)
  | 0, st => .error ("fuel exhausted", st.cur)
  | fuel + 1, st => parse_array_loopF fuel [] st.cur st

/-- The while-let loop of parse_array, with the accumulated array explicit. -/
def parse_array_loopF : Nat → List Value → Span → LexState → Except PErr (Value × LexState)
  | 0, _, _, st => .error ("fuel exhausted", st.cur)
  | fuel + 1, arr, startSpan, st =>
    match st.rest with
    | [] => .error ("unmatched opening bracket", startSpan)
    | (some .BraceClose, sp) :: r =>
      if arr.any isObject then
        match flatten_array arr with
        | .ok v => .ok (v, ⟨r, sp, st.endPos⟩)
        | .error e => .error e
      else .ok (.Array arr, ⟨r, sp, st.endPos⟩)
    | (some .BraceOpen, sp) :: r =>
      match parse_arrayF fuel ⟨r, sp, st.endPos⟩ with
      | .ok (v, st2) => parse_array_loopF fuel (arr ++ [v]) startSpan st2
      | .error e => .error e
    | (some (.Any s), sp) :: r =>
      match parse_any_token_in_arrayF fuel ⟨r, sp, st.endPos⟩ s with
      | .ok (.Single v, st2) => parse_array_loopF fuel (arr ++ [v]) startSpan st2
      | .ok (.Multiple vs, st2) => parse_array_loopF fuel (arr ++ vs) startSpan st2
      | .ok (.EndArray v, st2) => .ok (.Array (arr ++ [v]), st2)
      | .error e => .error e
    | (some t, sp) :: r =>
      match parse_simple_value t with
      | .ok v => parse_array_loopF fuel (arr ++ [v]) startSpan ⟨r, sp, st.endPos⟩
      | .error e => .error e
    | (none, sp) :: _ => .error ("failed to parse token in array ", sp)

/-- parse_any_token_in_array of parse_array.rs: one-token lookahead after a
bare identifier inside a block. -/
def parse_any_token_in_arrayF : Nat → LexState → String → Except PErr (ArrayParseResult × LexState)
  | 0, st, _ => .error ("fuel exhausted", st.cur)
  | fuel + 1, st, token_value =>
    match st.rest with
    | (some .EqualSign, sp) :: r =>
      match parse_next_valueF fuel ⟨r, sp, st.endPos⟩ with
      | .ok (v, st2) => .ok (.Single (.Object (ohmFromPairs [(token_value, v)])), st2)
      | .error e => .error e
    | (some .BraceClose, sp) :: r => .ok (.EndArray (.String token_value), ⟨r, sp, st.endPos⟩)
    | (some t, sp) :: r =>
      match parse_simple_value t with
      | .ok v => .ok (.Multiple [.String token_value, v], ⟨r, sp, st.endPos⟩)
      | .error e => .error e
    | (none, sp) :: _ => .error ("unexpected token after identifier in array", sp)
    | [] => .error ("unexpected token after identifier in array", st.eofSpan)

end

/-- parse_object_contents of parse_program.rs.  The accumulated vars
are the Vec of (key, value) pairs the source pushes into (the source wraps
that Vec directly in Value::Object even though the declared field type is an
OrderedHashMap — a type mismatch in the source; the push semantics are
embedded literally, so duplicate keys yield duplicate entries).  An Err lex
item hits todo!() in the source (a panic), modelled as a distinguished
error. -/
def parse_object_contentsF : Nat → List (String × Value) → Option String → LexState → Except PErr (Value × LexState)
  | 0, _, _, st => .error ("fuel exhausted", st.cur)
  | fuel + 1, vars, currentKey, st =>
    match st.rest with
    | [] => .ok (.Object vars, { st with rest := [] })
    | (some .BraceClose, sp) :: r =>
      match currentKey with
      | some _ => .error ("unexpected '\x7d', expected '=' followed by value after key", sp)
      | none => .ok (.Object vars, ⟨r, sp, st.endPos⟩)
    | (some (.Any key), sp) :: r =>
      match currentKey with
      | none => parse_object_contentsF fuel vars (some key) ⟨r, sp, st.endPos⟩
      | some _ => .error (objCtxErrMsg (.Any key) currentKey, sp)
    | (some .EqualSign, sp) :: r =>
      match currentKey with
      | some key =>
        match parse_next_valueF fuel ⟨r, sp, st.endPos⟩ with
        | .ok (value, st2) => parse_object_contentsF fuel (vars ++ [(key, value)]) none st2
        | .error e => .error e
      | none => .error (objCtxErrMsg .EqualSign currentKey, sp)
    | (some .Comment1, sp) :: r => parse_object_contentsF fuel vars currentKey ⟨r, sp, st.endPos⟩
    | (some t, sp) :: _ => .error (objCtxErrMsg t currentKey, sp)
    | (none, sp) :: _ => .error ("lexer error item: todo! panic in source", sp)

/-- parse_program of parse_program.rs: lex the source and parse the
top-level object contents (before any token is consumed, lexer.span() is
0..0).  The fuel is ample: every parser step consumes at least one token or
at most three nested calls per token. -/
def parse_program (source : String) : Except PErr Value :=
  let toks := tokenize source
  let st : LexState := ⟨toks, ⟨0, 0⟩, source.length⟩
  match parse_object_contentsF (4 * toks.length + 8) [] none st with
  | .ok (v, _) => .ok v
  | .error e => .error e

/-- Discriminator for the Empty variant (used to state that a parse result
is not Value.Empty without a propositional binder). -/
def isEmptyValue : Value → Bool
  | .Empty => true
  | _ => false

/-! Theorems about the embedded program, one per claim of the
specification review. -/

/-- Claim C1 (amended): a block whose closing brace is reached with zero
accumulated elements parses to `Value.Array []`, not to `Value.Empty` —
parse_array never constructs the Empty variant. -/
theorem claim1_empty_block_is_plain_array (fuel : Nat) (startSpan cur sp : Span)
    (r : List (Option Token × Span)) (ep : Nat) :
    parse_array_loopF (fuel + 1) [] startSpan ⟨(some Token.BraceClose, sp) :: r, cur, ep⟩ =
      .ok (Value.Array [], ⟨r, sp, ep⟩)
    ∧ isEmptyValue (Value.Array []) = false :=
  ⟨rfl, rfl⟩

/-- Claim C1, counterexample to the claim as stated: the block `[]` (source
text two braces) parses in value position to `Value.Array []`, and that
result is not the `Value.Empty` the claim requires. -/
theorem claim1_counterexample :
    parse_next_valueF 8 ⟨tokenize "\x7b\x7d", ⟨0, 0⟩, 2⟩ =
      .ok (Value.Array [], ⟨[], ⟨1, 2⟩, 2⟩)
    ∧ isEmptyValue (Value.Array []) = false :=
  ⟨rfl, rfl⟩

/-- Claim C3 (code bug): at top level, a duplicated key is pushed again
onto the accumulated Vec, so `a = 1 a = 2` yields an Object with two
entries for `a`; the OrderedHashMap insert the declared Object type calls
for would instead keep one entry, at the first position, with the later
value. -/
theorem claim3_duplicate_key_entries :
    parse_program "a = 1 a = 2" =
      .ok (.Object [("a", .Integer 1), ("a", .Integer 2)])
    ∧ ohmInsert (ohmInsert [] "a" (.Integer 1)) "a" (.Integer 2) = [("a", .Integer 2)] :=
  ⟨rfl, rfl⟩

/-- Claim C4 (amended): after `identifier =`, String/Float/Integer/
Identifier tokens are accepted as scalars, but the Bool and Null tokens
fall into parse_next_value's catch-all and are rejected with "expected
value" — `key = true`, `key = false`, `key = null` all fail. -/
theorem claim4_bool_null_rejected_after_equals (fuel : Nat) (b : Bool) (n : Int)
    (s f : String) (sp cur : Span) (r : List (Option Token × Span)) (ep : Nat) :
    parse_next_valueF (fuel + 1) ⟨(some (.Bool b), sp) :: r, cur, ep⟩ =
      .error ("expected value", sp)
    ∧ parse_next_valueF (fuel + 1) ⟨(some .Null, sp) :: r, cur, ep⟩ =
      .error ("expected value", sp)
    ∧ parse_next_valueF (fuel + 1) ⟨(some (.Integer n), sp) :: r, cur, ep⟩ =
      .ok (.Integer n, ⟨r, sp, ep⟩)
    ∧ parse_next_valueF (fuel + 1) ⟨(some (.String s), sp) :: r, cur, ep⟩ =
      .ok (.String s, ⟨r, sp, ep⟩)
    ∧ parse_next_valueF (fuel + 1) ⟨(some (.Any s), sp) :: r, cur, ep⟩ =
      .ok (.String s, ⟨r, sp, ep⟩)
    ∧ parse_next_valueF (fuel + 1) ⟨(some (.Float f), sp) :: r, cur, ep⟩ =
      .ok (.Float f, ⟨r, sp, ep⟩) :=
  ⟨rfl, rfl, rfl, rfl, rfl, rfl⟩

/-- Claim C4, counterexample to the claim as stated: `key = true`,
`key = false` and `key = null` each fail with "expected value" (spanning
the keyword token) instead of inserting Bool/Null values. -/
theorem claim4_counterexample :
    parse_program "key = true" = .error ("expected value", ⟨6, 10⟩)
    ∧ parse_program "key = false" = .error ("expected value", ⟨6, 11⟩)
    ∧ parse_program "key = null" = .error ("expected value", ⟨6, 10⟩) :=
  ⟨rfl, rfl, rfl⟩

/-- Claim C5 (amended): the "unmatched opening bracket" error (spanning the
position where the block started) is produced only when the token stream
ends while the block loop is awaiting a fresh element; when the stream ends
during the one-token lookahead after a bare identifier — as in `{ key` —
the error is "unexpected token after identifier in array" at the
end-of-input span instead. -/
theorem claim5_unmatched_bracket_spans (fuel : Nat) (arr : List Value) (s : String)
    (startSpan cur sp : Span) (ep : Nat) :
    parse_array_loopF (fuel + 1) arr startSpan ⟨[], cur, ep⟩ =
      .error ("unmatched opening bracket", startSpan)
    ∧ parse_next_valueF (fuel + 3) ⟨[(some .BraceOpen, sp)], cur, ep⟩ =
      .error ("unmatched opening bracket", sp)
    ∧ parse_arrayF (fuel + 3) ⟨[(some (.Any s), sp)], cur, ep⟩ =
      .error ("unexpected token after identifier in array", ⟨ep, ep⟩) :=
  ⟨rfl, rfl, rfl⟩

/-- Claim C5, counterexample to the claim as stated: the block of `{ key`
fails with "unexpected token after identifier in array" (at the
end-of-input span 5..5), which is a different error than the claimed
"unmatched opening bracket". -/
theorem claim5_counterexample :
    parse_next_valueF 8 ⟨tokenize "\x7b key", ⟨0, 0⟩, 5⟩ =
      .error ("unexpected token after identifier in array", ⟨5, 5⟩)
    ∧ (("unexpected token after identifier in array" : String) ==
        "unmatched opening bracket") = false :=
  ⟨rfl, by decide⟩

/-- Claim C6 (amended): at top level, reaching end-of-stream returns the
accumulated object in BOTH states — a pending key (AwaitingEqualsAndValue)
is silently dropped rather than reported; the "expected '=' followed by
value after key" error is raised only when an explicit closing brace
arrives while a key is pending. -/
theorem claim6_eof_and_close_behavior (fuel : Nat) (vars : List (String × Value))
    (ck : Option String) (k : String) (cur sp : Span) (ep : Nat)
    (r : List (Option Token × Span)) :
    parse_object_contentsF (fuel + 1) vars ck ⟨[], cur, ep⟩ =
      .ok (.Object vars, ⟨[], cur, ep⟩)
    ∧ parse_object_contentsF (fuel + 1) vars (some k) ⟨(some .BraceClose, sp) :: r, cur, ep⟩ =
      .error ("unexpected '\x7d', expected '=' followed by value after key", sp)
    ∧ parse_object_contentsF (fuel + 1) vars none ⟨(some .BraceClose, sp) :: r, cur, ep⟩ =
      .ok (.Object vars, ⟨r, sp, ep⟩) :=
  ⟨rfl, rfl, rfl⟩

/-- Claim C6, counterexample to the claim as stated: the input `key` (one
bare identifier, then end of stream — the AwaitingEqualsAndValue state)
succeeds with an empty object, silently dropping the dangling key, instead
of failing with an expected-value-after-key error. -/
theorem claim6_counterexample :
    parse_program "key" = .ok (.Object []) :=
  rfl

/-- flatten_array's loop fails with the mixed-array message as soon as it
meets any non-Object element, whatever has been merged so far. -/
theorem flatten_arrayAux_error_of_nonobject (l : List Value) :
    ∀ acc : List (String × Value), (∃ v ∈ l, isObject v = false) →
      flatten_arrayAux acc l =
        .error ("array containing object is mixed with non-object value", ⟨0, 0⟩) := by
  induction l with
  | nil =>
    intro acc h
    rcases h with ⟨v, hv, _⟩
    cases hv
  | cons x rest ih =>
    intro acc h
    cases x with
    | Object o =>
      apply ih
      rcases h with ⟨v, hv, hvo⟩
      rcases List.mem_cons.mp hv with rfl | hvr
      · simp [isObject] at hvo
      · exact ⟨v, hvr, hvo⟩
    | Null => rfl
    | Bool b => rfl
    | Float raw => rfl
    | Integer n => rfl
    | String s => rfl
    | Array es => rfl
    | Empty => rfl

/-- Claim C2 (amended): when the block loop itself consumes the closing
brace while the accumulated elements contain at least one Object and at
least one non-Object, the parse fails with "array containing object is
mixed with non-object value".  (The identifier-then-close shortcut returns
the array without this check — see the counterexample.) -/
theorem claim2_mixed_close_errors (fuel : Nat) (arr : List Value)
    (startSpan cur sp : Span) (r : List (Option Token × Span)) (ep : Nat)
    (hobj : ∃ v ∈ arr, isObject v = true)
    (hmix : ∃ v ∈ arr, isObject v = false) :
    parse_array_loopF (fuel + 1) arr startSpan ⟨(some Token.BraceClose, sp) :: r, cur, ep⟩ =
      .error ("array containing object is mixed with non-object value", ⟨0, 0⟩) := by
  have hany : arr.any isObject = true := by
    rcases hobj with ⟨v, hv, ho⟩
    exact List.any_eq_true.mpr ⟨v, hv, by simpa using ho⟩
  have hfl : flatten_array arr =
      .error ("array containing object is mixed with non-object value", ⟨0, 0⟩) :=
    flatten_arrayAux_error_of_nonobject arr [] hmix
  simp only [parse_array_loopF, hany, if_true, hfl]

/-- Claim C2, witness: the amended theorem applied to the element list of
the block `{ a = 1 } "x"` (one Object element, one String element). -/
theorem claim2_witness :
    parse_array_loopF 1 [Value.Object [("a", Value.Integer 1)], Value.String "x"]
        ⟨0, 1⟩ ⟨[(some Token.BraceClose, ⟨10, 11⟩)], ⟨8, 9⟩, 11⟩ =
      .error ("array containing object is mixed with non-object value", ⟨0, 0⟩) :=
  claim2_mixed_close_errors 0 _ _ _ _ _ _
    ⟨Value.Object [("a", Value.Integer 1)], List.mem_cons_self _ _, rfl⟩
    ⟨Value.String "x", List.mem_cons_of_mem _ (List.mem_cons_self _ _), rfl⟩

/-- Claim C2, counterexample to the claim as stated: in the block of
`{ a = 1 x }` the closing brace is consumed by the identifier lookahead
(the identifier-then-close path), and the parse SUCCEEDS with an Array
mixing an Object element and a non-Object element — no mixed-array error
is raised on that path. -/
theorem claim2_counterexample :
    parse_arrayF 16 ⟨tokenize "a = 1 x \x7d", ⟨0, 1⟩, 9⟩ =
      .ok (.Array [.Object [("a", .Integer 1)], .String "x"], ⟨[], ⟨8, 9⟩, 9⟩)
    ∧ isObject (Value.Object [("a", Value.Integer 1)]) = true
    ∧ isObject (Value.String "x") = false :=
  ⟨rfl, rfl, rfl⟩

/-- Claim C7 (confirmed): inside a block, a bare identifier followed by any
scalar token (one that parse_simple_value accepts — so not `=`, `}` or `{`)
is not treated as a key: the identifier (as a String) and the resolved
scalar are pushed as two separate array elements. -/
theorem claim7_adjacent_bare_tokens (fuel : Nat) (s : String) (t : Token) (v : Value)
    (sp1 sp2 sp3 cur : Span) (ep : Nat)
    (hscalar : parse_simple_value t = .ok v) :
    parse_arrayF (fuel + 3)
        ⟨[(some (.Any s), sp1), (some t, sp2), (some .BraceClose, sp3)], cur, ep⟩ =
      .ok (.Array [.String s, v], ⟨[], sp3, ep⟩) := by
  cases t <;> simp [parse_simple_value] at hscalar <;> subst hscalar <;> rfl

/-- Claim C7, witness: `{ hello world }` parses to
`Array [String "hello", String "world"]`. -/
theorem claim7_witness :
    parse_arrayF 3
        ⟨[(some (.Any "hello"), ⟨2, 7⟩), (some (.Any "world"), ⟨8, 13⟩),
          (some .BraceClose, ⟨14, 15⟩)], ⟨0, 1⟩, 15⟩ =
      .ok (.Array [.String "hello", .String "world"], ⟨[], ⟨14, 15⟩, 15⟩) :=
  claim7_adjacent_bare_tokens 0 "hello" (.Any "world") (.String "world") _ _ _ _ _ rfl

/-- ohmInsert of a key absent from the map appends the pair. -/
theorem ohmInsert_append_of_notmem (m : List (String × Value)) (k : String) (v : Value)
    (h : ∀ q ∈ m, q.1 ≠ k) : ohmInsert m k v = m ++ [(k, v)] := by
  have hany : m.any (fun p => p.1 == k) = false := by
    rw [List.any_eq_false]
    intro p hp
    simpa using h p hp
  simp only [ohmInsert, hany, Bool.false_eq_true, if_false]

/-- Extending an OrderedHashMap with pairs whose keys are fresh and
pairwise distinct appends them in order. -/
theorem ohmExtend_append_of_disjoint (o : List (String × Value)) :
    ∀ m : List (String × Value),
      (∀ p ∈ o, ∀ q ∈ m, q.1 ≠ p.1) → (o.map Prod.fst).Nodup →
      ohmExtend m o = m ++ o := by
  induction o with
  | nil => intro m _ _; simp [ohmExtend]
  | cons p o' ih =>
    intro m hdisj hnd
    obtain ⟨k, v⟩ := p
    have hstep : ohmExtend m ((k, v) :: o') = ohmExtend (ohmInsert m k v) o' := rfl
    have hins : ohmInsert m k v = m ++ [(k, v)] :=
      ohmInsert_append_of_notmem m k v
        (fun q hq => hdisj (k, v) (List.mem_cons_self _ _) q hq)
    have hk_not : k ∉ o'.map Prod.fst := by
      have := hnd
      simp only [List.map_cons, List.nodup_cons] at this
      exact this.1
    have hnd' : (o'.map Prod.fst).Nodup := by
      simp only [List.map_cons, List.nodup_cons] at hnd
      exact hnd.2
    have hdisj' : ∀ p' ∈ o', ∀ q ∈ m ++ [(k, v)], q.1 ≠ p'.1 := by
      intro p' hp' q hq
      rcases List.mem_append.mp hq with hqm | hqk
      · exact hdisj p' (List.mem_cons_of_mem _ hp') q hqm
      · rcases List.mem_singleton.mp hqk with rfl
        intro hkp
        exact hk_not (by simpa [← hkp] using List.mem_map_of_mem Prod.fst hp')
    rw [hstep, hins, ih _ hdisj' hnd', List.append_assoc]
    rfl

/-- Claim C9 (confirmed): flattening a one-element array holding a single
Object returns that Object unchanged (same keys, same values, same order),
for every object whose keys are unique — the invariant every real
OrderedHashMap satisfies. -/
theorem claim9_flatten_single_object (o : List (String × Value))
    (h : (o.map Prod.fst).Nodup) :
    flatten_array [Value.Object o] = .ok (Value.Object o) := by
  have hext : ohmExtend [] o = o := by
    have := ohmExtend_append_of_disjoint o []
      (fun p _ q hq => absurd hq (List.not_mem_nil q)) h
    simpa using this
  show flatten_arrayAux (ohmExtend [] o) [] = _
  rw [hext]
  rfl

/-- Claim C9, witness: the theorem applied to the single-entry object of
the repository's own flatten test. -/
theorem claim9_witness :
    flatten_array [Value.Object [("key", Value.String "value")]] =
      .ok (Value.Object [("key", Value.String "value")]) :=
  claim9_flatten_single_object [("key", Value.String "value")] (by simp)

/-- Taking as many elements as the takeWhile run is the takeWhile run. -/
theorem take_takeWhile_length (p : Char → Bool) (l : List Char) :
    l.take (l.takeWhile p).length = l.takeWhile p := by
  induction l with
  | nil => rfl
  | cons c cs ih =>
    by_cases h : p c
    · simp [List.takeWhile_cons, h, List.take_succ_cons, ih]
    · simp [List.takeWhile_cons, h]

/-- The foldl underlying pickBest only ever returns an element of the list
or the starting accumulator. -/
theorem pickBest_foldl_mem (l : List (Nat × Nat × TokKind)) :
    ∀ (acc : Option (Nat × Nat × TokKind)) (c : Nat × Nat × TokKind),
      l.foldl
        (fun acc c =>
          match acc with
          | none => some c
          | some b => if betterCand c b then some c else some b)
        acc = some c →
      c ∈ l ∨ acc = some c := by
  induction l with
  | nil => intro acc c h; exact Or.inr h
  | cons x xs ih =>
    intro acc c h
    rcases ih _ c h with hm | he
    · exact Or.inl (List.mem_cons_of_mem _ hm)
    · cases acc with
      | none =>
        dsimp only at he
        rcases Option.some.inj he with rfl
        exact Or.inl (List.mem_cons_self _ _)
      | some b =>
        dsimp only at he
        by_cases hb : betterCand x b
        · rw [if_pos hb] at he
          rcases Option.some.inj he with rfl
          exact Or.inl (List.mem_cons_self _ _)
        · rw [if_neg hb] at he
          exact Or.inr he

/-- The winner chosen by pickBest is one of the candidates. -/
theorem pickBest_mem (l : List (Nat × Nat × TokKind)) (c : Nat × Nat × TokKind)
    (h : pickBest l = some c) : c ∈ l := by
  rcases pickBest_foldl_mem l none c h with hm | he
  · exact hm
  · exact absurd he (by simp)

/-- The only candidate carrying the bare-identifier kind is the Any rule,
whose match length is the maximal run of identifier characters. -/
theorem kAny_cand_len (cs : List Char) (len pri : Nat)
    (h : (len, pri, TokKind.kAny) ∈ allCands cs) : len = anyLen cs := by
  simp only [allCands, List.mem_cons, List.not_mem_nil, or_false,
    Prod.mk.injEq] at h
  rcases h with h|h|h|h|h|h|h|h|h|h|h|h|h <;> simp_all

/-- Every Any token emitted by the tokenizer consists of a nonempty run of
identifier characters (letters, digits, underscore, colon). -/
theorem tokenizeAux_any_chars :
    ∀ (fuel pos : Nat) (cs : List Char) (txt : String) (sp : Span),
      (some (Token.Any txt), sp) ∈ tokenizeAux fuel pos cs →
      txt.toList.isEmpty = false ∧ txt.toList.all isAnyChar = true := by
  intro fuel
  induction fuel with
  | zero => intro pos cs txt sp h; simp [tokenizeAux] at h
  | succ n ih =>
    intro pos cs txt sp h
    cases cs with
    | nil => simp [tokenizeAux] at h
    | cons c cs' =>
      rcases hpb : pickBest (cands (c :: cs')) with _ | ⟨len, pri, k⟩
      · simp only [tokenizeAux, hpb] at h
        rcases List.mem_cons.mp h with hh | ht
        · simp at hh
        · exact ih _ _ _ _ ht
      · have hm2 : (len, pri, k) ∈ allCands (c :: cs') ∧ ¬ len = 0 := by
          simpa [cands, List.mem_filter] using pickBest_mem _ _ hpb
        cases k with
        | kAny =>
          have hlen : len = anyLen (c :: cs') := kAny_cand_len _ _ _ hm2.1
          simp only [tokenizeAux, hpb, mkToken] at h
          rcases List.mem_cons.mp h with hh | ht
          · have htxt : txt = String.mk ((c :: cs').take len) := by
              simpa using congrArg Prod.fst hh
            subst htxt
            rw [hlen]
            have hrun : (c :: cs').take (anyLen (c :: cs')) =
                (c :: cs').takeWhile isAnyChar :=
              take_takeWhile_length isAnyChar (c :: cs')
            constructor
            · show ((c :: cs').take (anyLen (c :: cs'))).isEmpty = false
              rw [hrun]
              have hne : (anyLen (c :: cs')) ≠ 0 := by rw [← hlen]; exact hm2.2
              rcases hcase : (c :: cs').takeWhile isAnyChar with _ | ⟨a, as⟩
              · exact absurd (by simp [anyLen, hcase]) hne
              · rfl
            · show ((c :: cs').take (anyLen (c :: cs'))).all isAnyChar = true
              rw [hrun, List.all_eq_true]
              intro x hx
              exact List.mem_takeWhile_imp hx
          · exact ih _ _ _ _ ht
        | kTrue =>
          simp only [tokenizeAux, hpb, mkToken] at h
          rcases List.mem_cons.mp h with hh | ht
          · simp at hh
          · exact ih _ _ _ _ ht
        | kFalse =>
          simp only [tokenizeAux, hpb, mkToken] at h
          rcases List.mem_cons.mp h with hh | ht
          · simp at hh
          · exact ih _ _ _ _ ht
        | kOpen =>
          simp only [tokenizeAux, hpb, mkToken] at h
          rcases List.mem_cons.mp h with hh | ht
          · simp at hh
          · exact ih _ _ _ _ ht
        | kClose =>
          simp only [tokenizeAux, hpb, mkToken] at h
          rcases List.mem_cons.mp h with hh | ht
          · simp at hh
          · exact ih _ _ _ _ ht
        | kEq =>
          simp only [tokenizeAux, hpb, mkToken] at h
          rcases List.mem_cons.mp h with hh | ht
          · simp at hh
          · exact ih _ _ _ _ ht
        | kNull =>
          simp only [tokenizeAux, hpb, mkToken] at h
          rcases List.mem_cons.mp h with hh | ht
          · simp at hh
          · exact ih _ _ _ _ ht
        | kFloat =>
          simp only [tokenizeAux, hpb, mkToken] at h
          rcases List.mem_cons.mp h with hh | ht
          · simp at hh
          · exact ih _ _ _ _ ht
        | kInt =>
          simp only [tokenizeAux, hpb, mkToken] at h
          rcases List.mem_cons.mp h with hh | ht
          · simp at hh
          · exact ih _ _ _ _ ht
        | kStr =>
          simp only [tokenizeAux, hpb, mkToken] at h
          rcases List.mem_cons.mp h with hh | ht
          · simp at hh
          · exact ih _ _ _ _ ht
        | kWs =>
          simp only [tokenizeAux, hpb, mkToken] at h
          exact ih _ _ _ _ h
        | kC1 =>
          simp only [tokenizeAux, hpb, mkToken] at h
          exact ih _ _ _ _ h
        | kC2 =>
          simp only [tokenizeAux, hpb, mkToken] at h
          exact ih _ _ _ _ h

/-- Claim C8 (amended): every Identifier (Any) token the tokenizer emits
has text that is a nonempty run of characters from [A-Za-z0-9_:]; the rule
places no constraint on the first character, so identifiers may begin with
a digit, underscore, or colon (see the counterexample). -/
theorem claim8_any_token_charset (s txt : String) (sp : Span)
    (h : (some (Token.Any txt), sp) ∈ tokenize s) :
    txt.toList.isEmpty = false ∧ txt.toList.all isAnyChar = true :=
  tokenizeAux_any_chars _ _ _ txt sp h

/-- Claim C8, witness: the charset theorem applied to the Any token of the
input underscore-a. -/
theorem claim8_witness :
    ("_a".toList.isEmpty = false) ∧ ("_a".toList.all isAnyChar = true) :=
  claim8_any_token_charset "_a" "_a" ⟨0, 2⟩ (by decide)

/-- Claim C8, counterexample to the claim as stated: the bare word `_a`
begins with an underscore (not a letter) and is nevertheless emitted as an
Identifier (Any) token. -/
theorem claim8_counterexample :
    tokenize "_a" = [(some (Token.Any "_a"), ⟨0, 2⟩)]
    ∧ Char.isAlpha '_' = false
    ∧ "_a".toList.head? = some '_' :=
  ⟨rfl, rfl, rfl⟩

/-- Whenever parse_object_contents returns Ok, the value is built by one of
its two `Value::Object(vars)` return sites, so it is an Object. -/
theorem objContents_ok_object :
    ∀ (fuel : Nat) (vars : List (String × Value)) (ck : Option String)
      (st : LexState) (out : Value × LexState),
      parse_object_contentsF fuel vars ck st = .ok out → isObject out.1 = true := by
  intro fuel
  induction fuel with
  | zero => intro vars ck st out h; simp [parse_object_contentsF] at h
  | succ n ih =>
    intro vars ck st out h
    obtain ⟨rest, cur, ep⟩ := st
    obtain ⟨v, st'⟩ := out
    cases rest with
    | nil =>
      simp only [parse_object_contentsF] at h
      rcases Except.ok.inj h with h2
      rw [← congrArg Prod.fst h2]
      rfl
    | cons item r =>
      obtain ⟨otok, sp⟩ := item
      cases otok with
      | none => simp [parse_object_contentsF] at h
      | some t =>
        cases t with
        | BraceClose =>
          cases ck with
          | some k => simp [parse_object_contentsF] at h
          | none =>
            simp only [parse_object_contentsF] at h
            rcases Except.ok.inj h with h2
            rw [← congrArg Prod.fst h2]
            rfl
        | Any key =>
          cases ck with
          | none => exact ih _ _ _ _ h
          | some k => simp [parse_object_contentsF] at h
        | EqualSign =>
          cases ck with
          | some key =>
            have h' : (match parse_next_valueF n ⟨r, sp, ep⟩ with
                | .ok (value, st2) =>
                    parse_object_contentsF n (vars ++ [(key, value)]) none st2
                | .error e => (.error e : Except PErr (Value × LexState))) =
                .ok (v, st') := h
            cases hv : parse_next_valueF n ⟨r, sp, ep⟩ with
            | ok pr =>
              obtain ⟨value, st2⟩ := pr
              rw [hv] at h'
              exact ih _ _ _ _ h'
            | error e =>
              rw [hv] at h'
              simp at h'
          | none => simp [parse_object_contentsF] at h
        | Comment1 => exact ih _ _ _ _ h
        | Bool b => simp [parse_object_contentsF] at h
        | BraceOpen => simp [parse_object_contentsF] at h
        | Null => simp [parse_object_contentsF] at h
        | Float raw => simp [parse_object_contentsF] at h
        | Integer m => simp [parse_object_contentsF] at h
        | String s => simp [parse_object_contentsF] at h
        | Comment2 => simp [parse_object_contentsF] at h

/-- Claim C10 (confirmed): whenever the top-level parse succeeds the result
is an Object (never a scalar, Array or Empty), and the empty and
whitespace-only inputs succeed with an empty Object. -/
theorem claim10_top_level_always_object :
    (∀ (source : String) (v : Value), parse_program source = .ok v → isObject v = true)
    ∧ parse_program "" = .ok (.Object [])
    ∧ parse_program " \t\n " = .ok (.Object []) := by
  refine ⟨?_, rfl, rfl⟩
  intro source v h
  have h' : (match parse_object_contentsF (4 * (tokenize source).length + 8) [] none
        ⟨tokenize source, ⟨0, 0⟩, source.length⟩ with
      | .ok (v', _) => (.ok v' : Except PErr Value)
      | .error e => .error e) = .ok v := h
  cases hv : parse_object_contentsF (4 * (tokenize source).length + 8) [] none
      ⟨tokenize source, ⟨0, 0⟩, source.length⟩ with
  | ok pr =>
    obtain ⟨v', st'⟩ := pr
    rw [hv] at h'
    rcases Except.ok.inj h' with rfl
    exact objContents_ok_object _ _ _ _ _ hv
  | error e =>
    rw [hv] at h'
    simp at h'

/-- Claim C10, witness: the shape theorem applied to the empty input. -/
theorem claim10_witness : isObject (Value.Object []) = true :=
  claim10_top_level_always_object.1 "" (Value.Object []) rfl

end Vic3
